import Mathlib

/-
Verification of the dataflow-graph wiring layer (src/src/pipeline/Node.cpp):
ports, port groups, connections and message fan-out of the pipeline API.
Shallow embedding: C++ objects become Lean structures, in-place mutation
becomes explicit state passing, and fallible steps return Option/Except.
-/

namespace dai

/-- Node ids (`Node::Id`, an integer unique within one pipeline). -/
abbrev Id := Int

/-- Modelled from the spec: messages (`std::shared_ptr<ADatatype>`) are an
opaque value passed by shared ownership; only identity matters here, so a
message is a bare number. -/
abbrev Msg := Nat

/-- Modelled from the spec: the per-input message-queue collaborator is an
opaque bounded queue supporting `send(value)` (blocking, always enqueues in
this sequential model) and `trySend(value)` (non-blocking, returns a success
flag and drops the value when the queue is full). -/
structure MessageQueue where
  capacity : Nat
  msgs : List Msg
deriving DecidableEq, Repr

/-- Blocking enqueue: in the sequential model a blocking send always
completes, appending the message. -/
def MessageQueue.send (q : MessageQueue) (m : Msg) : MessageQueue :=
  { q with msgs := q.msgs ++ [m] }

/-- Non-blocking enqueue: succeeds and appends when below capacity,
otherwise fails leaving the queue unchanged. -/
def MessageQueue.trySend (q : MessageQueue) (m : Msg) : Bool × MessageQueue :=
  if q.msgs.length < q.capacity then (true, { q with msgs := q.msgs ++ [m] })
  else (false, q)

namespace Node

/-- An output port (`Node::Output`). `nodeId` stands for the back-reference
`parent.id`; `pipeline` is the result of `parent.parent.lock()` — `none`
when the owning pipeline has been destroyed, `some pid` identifying the
live pipeline instance. -/
structure Output where
  nodeId : Id
  pipeline : Option Nat
  group : String
  name : String
deriving DecidableEq, Repr

/-- An input port (`Node::Input`) with its optional policy overrides, the
node-type defaults they fall back to, and its queue. -/
structure Input where
  nodeId : Id
  pipeline : Option Nat
  group : String
  name : String
  blocking : Option Bool
  queueSize : Option Int
  waitForMessage : Option Bool
  defaultBlocking : Bool
  defaultQueueSize : Int
  defaultWaitForMessage : Bool
  queue : MessageQueue
deriving DecidableEq, Repr

/-- A connection record (`Node::Connection`): six identifying fields,
structural equality. -/
structure Connection where
  outputId : Id
  outputName : String
  outputGroup : String
  inputId : Id
  inputName : String
  inputGroup : String
deriving DecidableEq, Repr

/-- `Node::Output::toString`. -/
def Output.toString (o : Output) : String :=
  if o.group == "" then o.name
  else o.group ++ "[\"" ++ o.name ++ "\"]"

/-- `Node::Input::toString`. -/
def Input.toString (i : Input) : String :=
  if i.group == "" then i.name
  else i.group ++ "[\"" ++ i.name ++ "\"]"

/-- `Node::Input::setBlocking`. -/
def Input.setBlocking (i : Input) (b : Bool) : Input :=
  { i with blocking := some b }

/-- `Node::Input::getBlocking`. -/
def Input.getBlocking (i : Input) : Bool :=
  i.blocking.getD i.defaultBlocking

/-- `Node::Input::setQueueSize`. -/
def Input.setQueueSize (i : Input) (s : Int) : Input :=
  { i with queueSize := some s }

/-- `Node::Input::getQueueSize`. -/
def Input.getQueueSize (i : Input) : Int :=
  i.queueSize.getD i.defaultQueueSize

/-- `Node::Input::setWaitForMessage`. -/
def Input.setWaitForMessage (i : Input) (w : Bool) : Input :=
  { i with waitForMessage := some w }

/-- `Node::Input::getWaitForMessage`. -/
def Input.getWaitForMessage (i : Input) : Bool :=
  i.waitForMessage.getD i.defaultWaitForMessage

/-- `Node::Input::setReusePreviousMessage`: writes the same underlying
field with flipped polarity. -/
def Input.setReusePreviousMessage (i : Input) (w : Bool) : Input :=
  { i with waitForMessage := some (!w) }

/-- `Node::Input::getReusePreviousMessage`: negation of the same
`value_or`. -/
def Input.getReusePreviousMessage (i : Input) : Bool :=
  !(i.waitForMessage.getD i.defaultWaitForMessage)

/-- Modelled from the spec: `OutputMap` (the header declares it as a map
from string key to `Output` plus a name and a default template; the spec
describes it as a named, insertion-ordered mapping), embedded as an
insertion-ordered association list. -/
structure OutputMap where
  name : String
  defaultOutput : Output
  entries : List (String × Output)
deriving DecidableEq, Repr

/-- Modelled from the spec: `InputMap`, the input-port analogue of
`OutputMap`. -/
structure InputMap where
  name : String
  defaultInput : Input
  entries : List (String × Input)
deriving DecidableEq, Repr

/-- `Node::OutputMap::operator[]`: if the key is absent, create a copy of
the default template, stamp its group to the map's name and its name to the
key, and insert it; then return the entry at the key. Returns the (possibly
grown) map together with the looked-up port. -/
def OutputMap.index (om : OutputMap) (key : String) : OutputMap × Output :=
  match om.entries.find? (fun kv => kv.1 == key) with
  | some kv => (om, kv.2)
  | none =>
    let o : Output := { om.defaultOutput with group := om.name, name := key }
    ({ om with entries := om.entries ++ [(key, o)] }, o)

/-- `Node::InputMap::operator[]`, same logic as the output version. -/
def InputMap.index (im : InputMap) (key : String) : InputMap × Input :=
  match im.entries.find? (fun kv => kv.1 == key) with
  | some kv => (im, kv.2)
  | none =>
    let i : Input := { im.defaultInput with group := im.name, name := key }
    ({ im with entries := im.entries ++ [(key, i)] }, i)

end Node

/-- Modelled from the spec: a node's registration tables. The header keys
singular ports by name and groups by group name (last registration for a
name wins); the spec fixes the enumeration order as registration order,
so the tables are insertion-ordered association lists. -/
structure Node where
  id : Id
  outputRefs : List (String × Node.Output)
  outputMapRefs : List (String × Node.OutputMap)
  inputRefs : List (String × Node.Input)
  inputMapRefs : List (String × Node.InputMap)
deriving DecidableEq, Repr

namespace Node

/-- Loop pushing each registered singular port (`for kv in refs:
push_back(kv.second)`). -/
def valuesOf {α : Type} : List (String × α) → List α
  | [] => []
  | kv :: rest => kv.2 :: valuesOf rest

/-- Loop pushing every member of every registered output group. -/
def outputsOfMaps : List (String × OutputMap) → List Output
  | [] => []
  | kv :: rest => valuesOf kv.2.entries ++ outputsOfMaps rest

/-- Loop pushing every member of every registered input group. -/
def inputsOfMaps : List (String × InputMap) → List Input
  | [] => []
  | kv :: rest => valuesOf kv.2.entries ++ inputsOfMaps rest

/-- `Node::getOutputRefs`: singular outputs first, then the members of each
output group. -/
def getOutputRefs (n : Node) : List Output :=
  valuesOf n.outputRefs ++ outputsOfMaps n.outputMapRefs

/-- `Node::getInputRefs`: singular inputs first, then the members of each
input group. -/
def getInputRefs (n : Node) : List Input :=
  valuesOf n.inputRefs ++ inputsOfMaps n.inputMapRefs

/-- Linear scan of `Node::getOutputRef(group, name)`. -/
def getOutputRefLoop (g nm : String) : List Output → Option Output
  | [] => none
  | o :: os =>
    if o.group == g && o.name == nm then some o
    else getOutputRefLoop g nm os

/-- `Node::getOutputRef(group, name)`: first enumerated output matching the
pair, `nullptr` (here `none`) when no port matches. -/
def getOutputRef (n : Node) (g nm : String) : Option Output :=
  getOutputRefLoop g nm n.getOutputRefs

/-- `Node::getOutputRef(name)`: delegates with the empty group. -/
def getOutputRefByName (n : Node) (nm : String) : Option Output :=
  n.getOutputRef "" nm

/-- Linear scan of `Node::getInputRef(group, name)`. -/
def getInputRefLoop (g nm : String) : List Input → Option Input
  | [] => none
  | i :: is =>
    if i.group == g && i.name == nm then some i
    else getInputRefLoop g nm is

/-- `Node::getInputRef(group, name)`. -/
def getInputRef (n : Node) (g nm : String) : Option Input :=
  getInputRefLoop g nm n.getInputRefs

/-- `Node::getInputRef(name)`: delegates with the empty group. -/
def getInputRefByName (n : Node) (nm : String) : Option Input :=
  n.getInputRef "" nm

end Node

/-- Modelled from the spec: the pipeline graph (`PipelineImpl`) owns the
canonical node registry and connection list. -/
structure PipelineImpl where
  nodes : List Node
  connections : List Node.Connection
deriving DecidableEq, Repr

/-- Modelled from the spec: `getNode(id) -> optional<NodeRef>` returns the
registered node with the given id, or absence when no such node is
registered. -/
def PipelineImpl.getNode (p : PipelineImpl) (i : Id) : Option Node :=
  p.nodes.find? (fun n => n.id == i)

/-- Helper of `PipelineImpl.replaceNode`: replace the first registered node
carrying the given node's id. -/
def replaceFirstNode : List Node → Node → List Node
  | [], _ => []
  | x :: xs, n => if x.id == n.id then n :: xs else x :: replaceFirstNode xs n

/-- Writing a delivered-to node back into the registry: the C++ code
mutates the node through the shared reference `getNode` returned, so the
model replaces the first registered node carrying that id. -/
def PipelineImpl.replaceNode (p : PipelineImpl) (n : Node) : PipelineImpl :=
  { p with nodes := replaceFirstNode p.nodes n }

namespace Node

/-- Filtering loop of `Node::Output::getConnections`: push every connection
whose output endpoint matches this port. -/
def getConnectionsLoop (out : Output) : List Connection → List Connection
  | [] => []
  | c :: cs =>
    if c.outputId == out.nodeId && c.outputName == out.name && c.outputGroup == out.group
    then c :: getConnectionsLoop out cs
    else getConnectionsLoop out cs

/-- `Node::Output::getConnections`: filters the pipeline's full connection
list down to this output's connections. -/
def Output.getConnections (out : Output) (p : PipelineImpl) : List Connection :=
  getConnectionsLoop out p.connections

/-- `Node::Output::isSamePipeline`: lock the output's pipeline; when alive,
compare it for identity with the input's locked pipeline, otherwise
return false. -/
def Output.isSamePipeline (out : Output) (i : Input) : Bool :=
  match out.pipeline with
  | some pid => i.pipeline == some pid
  | none => false

/-- Inner loop of `Output::send` over the node's singular-input table:
every enumerated input whose (group, name) matches the connection's input
endpoint gets the message enqueued; there is no break after a match. -/
def sendToInputs (g nm : String) (m : Msg) : List (String × Input) → List (String × Input)
  | [] => []
  | (k, i) :: rest =>
    let iNew := if i.group == g && i.name == nm then { i with queue := i.queue.send m } else i
    (k, iNew) :: sendToInputs g nm m rest

/-- Inner loop of `Output::send` over the node's input-group tables. -/
def sendToInputMaps (g nm : String) (m : Msg) : List (String × InputMap) → List (String × InputMap)
  | [] => []
  | (k, im) :: rest =>
    (k, { im with entries := sendToInputs g nm m im.entries }) :: sendToInputMaps g nm m rest

/-- Delivery of one blocking send into one resolved node: enqueue into
every input of the node's enumeration matching the endpoint. -/
def deliverSend (n : Node) (g nm : String) (m : Msg) : Node :=
  { n with
    inputRefs := sendToInputs g nm m n.inputRefs
    inputMapRefs := sendToInputMaps g nm m n.inputMapRefs }

/-- Inner loop of `Output::trySend` over the singular-input table:
attempts a non-blocking enqueue into every matching input, folding the
individual success flags with logical AND (true over no matches). -/
def trySendToInputs (g nm : String) (m : Msg) : List (String × Input) → Bool × List (String × Input)
  | [] => (true, [])
  | (k, i) :: rest =>
    let step :=
      if i.group == g && i.name == nm then
        let r := i.queue.trySend m
        (r.1, { i with queue := r.2 })
      else (true, i)
    let tail := trySendToInputs g nm m rest
    (step.1 && tail.1, (k, step.2) :: tail.2)

/-- Inner loop of `Output::trySend` over the input-group tables. -/
def trySendToInputMaps (g nm : String) (m : Msg) : List (String × InputMap) → Bool × List (String × InputMap)
  | [] => (true, [])
  | (k, im) :: rest =>
    let step := trySendToInputs g nm m im.entries
    let tail := trySendToInputMaps g nm m rest
    (step.1 && tail.1, (k, { im with entries := step.2 }) :: tail.2)

/-- Delivery of one non-blocking send into one resolved node: attempt an
enqueue into every matching input and report the AND of the attempts. -/
def deliverTry (n : Node) (g nm : String) (m : Msg) : Bool × Node :=
  let s := trySendToInputs g nm m n.inputRefs
  let t := trySendToInputMaps g nm m n.inputMapRefs
  (s.1 && t.1, { n with inputRefs := s.2, inputMapRefs := t.2 })

/-- Outer loop of `Output::send`: for each matched connection, resolve the
target node by id and deliver. The source dereferences the `getNode`
result without a check, so an unresolvable node id faults the call,
modelled as `Except.error`. -/
def sendLoop (m : Msg) : List Connection → PipelineImpl → Except Unit PipelineImpl
  | [], p => .ok p
  | c :: cs, p =>
    match p.getNode c.inputId with
    | none => .error ()
    | some n => sendLoop m cs (p.replaceNode (deliverSend n c.inputGroup c.inputName m))

/-- `Node::Output::send`: re-query the connections, then fan out. -/
def Output.send (out : Output) (m : Msg) (p : PipelineImpl) : Except Unit PipelineImpl :=
  sendLoop m (out.getConnections p) p

/-- Outer loop of `Output::trySend`: like `sendLoop` but accumulating
`success &= ...` across every delivery, never stopping at a failure. -/
def trySendLoop (m : Msg) : List Connection → Bool → PipelineImpl → Except Unit (Bool × PipelineImpl)
  | [], acc, p => .ok (acc, p)
  | c :: cs, acc, p =>
    match p.getNode c.inputId with
    | none => .error ()
    | some n =>
      let d := deliverTry n c.inputGroup c.inputName m
      trySendLoop m cs (acc && d.1) (p.replaceNode d.2)

/-- `Node::Output::trySend`: starts the fold with `success = true`. -/
def Output.trySend (out : Output) (m : Msg) (p : PipelineImpl) : Except Unit (Bool × PipelineImpl) :=
  trySendLoop m (out.getConnections p) true p

/-- Spec-side mirror of one node delivery, written after the spec's words:
it records the individual success flag of every attempted non-blocking
enqueue, in attempt order, instead of folding them. -/
def tryFlagsInputs (g nm : String) (m : Msg) : List (String × Input) → List Bool × List (String × Input)
  | [] => ([], [])
  | (k, i) :: rest =>
    let step :=
      if i.group == g && i.name == nm then
        let r := i.queue.trySend m
        ([r.1], { i with queue := r.2 })
      else (([] : List Bool), i)
    let tail := tryFlagsInputs g nm m rest
    (step.1 ++ tail.1, (k, step.2) :: tail.2)

/-- Spec-side mirror of the group part of one node delivery. -/
def tryFlagsInputMaps (g nm : String) (m : Msg) : List (String × InputMap) → List Bool × List (String × InputMap)
  | [] => ([], [])
  | (k, im) :: rest =>
    let step := tryFlagsInputs g nm m im.entries
    let tail := tryFlagsInputMaps g nm m rest
    (step.1 ++ tail.1, (k, { im with entries := step.2 }) :: tail.2)

/-- Spec-side mirror of `deliverTry`, collecting the attempt flags. -/
def deliverTryFlags (n : Node) (g nm : String) (m : Msg) : List Bool × Node :=
  let s := tryFlagsInputs g nm m n.inputRefs
  let t := tryFlagsInputMaps g nm m n.inputMapRefs
  (s.1 ++ t.1, { n with inputRefs := s.2, inputMapRefs := t.2 })

/-- Spec-side mirror of the whole `trySend` fan-out: attempts delivery for
every matched connection in order and returns the list of every individual
attempt's success flag together with the final pipeline state; absence of
a connection's target node makes the fan-out unresolvable (`none`). -/
def trySendAttempts (m : Msg) : List Connection → PipelineImpl → Option (List Bool × PipelineImpl)
  | [], p => some ([], p)
  | c :: cs, p =>
    match p.getNode c.inputId with
    | none => none
    | some n =>
      let d := deliverTryFlags n c.inputGroup c.inputName m
      match trySendAttempts m cs (p.replaceNode d.2) with
      | none => none
      | some (fs, pFinal) => some (d.1 ++ fs, pFinal)

/-- One call to either delivery-policy setter of an input. -/
inductive WaitOp where
  | setWait (b : Bool)
  | setReuse (b : Bool)
deriving DecidableEq, Repr

/-- Apply one setter call. -/
def applyWaitOp (i : Input) : WaitOp → Input
  | .setWait b => i.setWaitForMessage b
  | .setReuse b => i.setReusePreviousMessage b

/-- Apply a finite sequence of setter calls, oldest first. -/
def applyWaitOps (i : Input) : List WaitOp → Input
  | [] => i
  | op :: ops => applyWaitOps (applyWaitOp i op) ops

/-- Concrete input fixture: ungrouped input with the given name, queue
capacity and queue content. -/
def mkInQ (nm : String) (cap : Nat) (ms : List Msg) : Input :=
  { nodeId := 0, pipeline := some 0, group := "", name := nm,
    blocking := none, queueSize := none, waitForMessage := none,
    defaultBlocking := true, defaultQueueSize := 8, defaultWaitForMessage := true,
    queue := { capacity := cap, msgs := ms } }

/-- Concrete input fixture with an empty queue. -/
def mkIn (nm : String) (cap : Nat) : Input :=
  mkInQ nm cap []

/-- Concrete output fixture owned by node 0 of pipeline 0. -/
def wOut : Output :=
  { nodeId := 0, pipeline := some 0, group := "", name := "out" }

/-- Concrete node fixture: one singular output and three singular inputs,
the middle one with a full (zero-capacity) queue. -/
def wNode : Node :=
  { id := 0,
    outputRefs := [("out", wOut)],
    outputMapRefs := [],
    inputRefs := [("i1", mkIn "i1" 1), ("i2", mkIn "i2" 0), ("i3", mkIn "i3" 1)],
    inputMapRefs := [] }

/-- Concrete connection fixture from `wOut` to the named input of node 0. -/
def wConn (nm : String) : Connection :=
  { outputId := 0, outputName := "out", outputGroup := "",
    inputId := 0, inputName := nm, inputGroup := "" }

/-- Concrete grouped output fixture for the formatting contract. -/
def w7out : Output :=
  { nodeId := 0, pipeline := some 0, group := "g", name := "a" }

/-- Concrete grouped input fixture for the formatting contract. -/
def w7in : Input :=
  { mkIn "a" 1 with group := "g" }

/-- Concrete output-group fixture with no materialized members yet. -/
def w4om : OutputMap :=
  { name := "g", defaultOutput := wOut, entries := [] }

/-- Concrete input fixture standing for a previously materialized group
member whose caller already set `queueSize = 7`. -/
def w4imEntry : Input :=
  { mkIn "x" 1 with group := "in", queueSize := some 7 }

/-- Concrete input-group fixture named "in" already holding `w4imEntry`
under key "x". -/
def w4im : InputMap :=
  { name := "in", defaultInput := mkIn "d" 1, entries := [("x", w4imEntry)] }

end Node

/-- Concrete pipeline fixture: `wOut` fans out to inputs i1, i2, i3. -/
def wPipe : PipelineImpl :=
  { nodes := [Node.wNode],
    connections := [Node.wConn "i1", Node.wConn "i2", Node.wConn "i3"] }

/-- The same pipeline with no connections at all. -/
def wPipeEmpty : PipelineImpl :=
  { nodes := [Node.wNode], connections := [] }

/-- Expected state of `wPipe` after `wOut.trySend 7`: i1 and i3 hold the
message, i2 (full queue) is unchanged. -/
def wPipeAfter : PipelineImpl :=
  { nodes := [{ Node.wNode with
      inputRefs := [("i1", Node.mkInQ "i1" 1 [7]),
                    ("i2", Node.mkInQ "i2" 0 []),
                    ("i3", Node.mkInQ "i3" 1 [7])] }],
    connections := wPipe.connections }

/-- Pipeline fixture whose first connection names an input node id (5) that
is not registered; a second, perfectly resolvable connection follows. -/
def cPipeBadNode : PipelineImpl :=
  { nodes := [Node.wNode],
    connections := [{ outputId := 0, outputName := "out", outputGroup := "",
                      inputId := 5, inputName := "gone", inputGroup := "" },
                    Node.wConn "i1"] }

/-- C3: after any finite sequence of calls to `setWaitForMessage` and
`setReusePreviousMessage`, `getWaitForMessage()` equals the logical
negation of `getReusePreviousMessage()`; both getters read the one
underlying optional `waitForMessage` value. -/
theorem waitForMessage_negation_invariant (i : Node.Input) (ops : List Node.WaitOp) :
    (Node.applyWaitOps i ops).getWaitForMessage
      = !(Node.applyWaitOps i ops).getReusePreviousMessage := by
  simp [Node.Input.getWaitForMessage, Node.Input.getReusePreviousMessage, Bool.not_not]

/-- C7: `toString()` of a port (Output or Input) is exactly the name when
the group is empty, and exactly group, open bracket, quoted name, close
bracket when the group is non-empty. -/
theorem toString_renders_group_and_name (o : Node.Output) (i : Node.Input) :
    (o.group = "" → o.toString = o.name) ∧
    (o.group ≠ "" → o.toString = o.group ++ "[\"" ++ o.name ++ "\"]") ∧
    (i.group = "" → i.toString = i.name) ∧
    (i.group ≠ "" → i.toString = i.group ++ "[\"" ++ i.name ++ "\"]") := by
  refine ⟨fun h => ?_, fun h => ?_, fun h => ?_, fun h => ?_⟩ <;>
    simp [Node.Output.toString, Node.Input.toString, h]

/-- Witness for C7 at the spec's own examples: an ungrouped port named
"out" and a port named "a" in group "g". -/
theorem toString_renders_group_and_name_witness :
    Node.Output.toString Node.wOut = "out" ∧
    Node.Output.toString Node.w7out = "g[\"a\"]" ∧
    Node.Input.toString (Node.mkIn "a" 1) = "a" ∧
    Node.Input.toString Node.w7in = "g[\"a\"]" :=
  ⟨(toString_renders_group_and_name Node.wOut Node.w7in).1 rfl,
   (toString_renders_group_and_name Node.w7out Node.w7in).2.1 (by decide),
   (toString_renders_group_and_name Node.wOut (Node.mkIn "a" 1)).2.2.1 rfl,
   (toString_renders_group_and_name Node.w7out Node.w7in).2.2.2 (by decide)⟩

/-- C10: `isSamePipeline(in)` is true exactly when the output's pipeline
weak reference locks to a live pipeline identical to the input's; with the
output's pipeline destroyed it is false no matter what the input's
reference locks to (second conjunct holds for every input, including one
whose own pipeline lock is null). -/
theorem isSamePipeline_alive_and_identical (out : Node.Output) (i : Node.Input) :
    (out.isSamePipeline i = true ↔ ∃ pid, out.pipeline = some pid ∧ i.pipeline = some pid) ∧
    (Node.Output.isSamePipeline { out with pipeline := none } i = false) := by
  constructor
  · cases h : out.pipeline with
    | none => simp [Node.Output.isSamePipeline, h]
    | some pid => simp [Node.Output.isSamePipeline, h]
  · rfl

/-- C2: at `cPipeBadNode` the first matched connection's input node id (5)
resolves to no registered node; the source dereferences the unchecked
`getNode` result, so the whole `send` faults instead of skipping that peer
and delivering to the remaining resolvable connection. -/
theorem send_faults_on_unresolvable_node :
    Node.Output.send Node.wOut 3 cPipeBadNode = .error () := rfl

theorem getConnectionsLoop_eq_filter (out : Node.Output) (cs : List Node.Connection) :
    Node.getConnectionsLoop out cs
      = cs.filter (fun c =>
          c.outputId == out.nodeId && c.outputName == out.name && c.outputGroup == out.group) := by
  induction cs with
  | nil => rfl
  | cons c rest ih =>
    cases h : (c.outputId == out.nodeId && c.outputName == out.name && c.outputGroup == out.group) with
    | true => simp [Node.getConnectionsLoop, List.filter_cons, h, ih]
    | false => simp [Node.getConnectionsLoop, List.filter_cons, h, ih]

/-- C6: `Output::getConnections` returns exactly the connections of the
graph's full list whose output endpoint (id, name, group) equals this
port's owning node id, name and group, in graph-list order (it is the
order-preserving filter, hence a sublist of the graph's list). -/
theorem getConnections_filters_graph_list (out : Node.Output) (p : PipelineImpl) :
    (out.getConnections p
      = p.connections.filter (fun c =>
          c.outputId == out.nodeId && c.outputName == out.name && c.outputGroup == out.group)) ∧
    (∀ c, c ∈ out.getConnections p ↔
      c ∈ p.connections ∧ c.outputId = out.nodeId ∧ c.outputName = out.name
        ∧ c.outputGroup = out.group) ∧
    List.Sublist (out.getConnections p) p.connections := by
  refine ⟨getConnectionsLoop_eq_filter out p.connections, fun c => ?_, ?_⟩
  · rw [Node.Output.getConnections, getConnectionsLoop_eq_filter]
    simp [List.mem_filter, and_assoc]
  · rw [Node.Output.getConnections, getConnectionsLoop_eq_filter]
    exact List.filter_sublist p.connections

theorem getOutputRefLoop_eq_find (g nm : String) (l : List Node.Output) :
    Node.getOutputRefLoop g nm l = l.find? (fun o => o.group == g && o.name == nm) := by
  induction l with
  | nil => rfl
  | cons o os ih =>
    cases h : (o.group == g && o.name == nm) with
    | true => simp [Node.getOutputRefLoop, List.find?_cons, h]
    | false => simp [Node.getOutputRefLoop, List.find?_cons, h, ih]

theorem getInputRefLoop_eq_find (g nm : String) (l : List Node.Input) :
    Node.getInputRefLoop g nm l = l.find? (fun i => i.group == g && i.name == nm) := by
  induction l with
  | nil => rfl
  | cons i is ih =>
    cases h : (i.group == g && i.name == nm) with
    | true => simp [Node.getInputRefLoop, List.find?_cons, h]
    | false => simp [Node.getInputRefLoop, List.find?_cons, h, ih]

/-- C8: `getOutputRef(group, name)` / `getInputRef(group, name)` scan the
full enumeration in order and return its first (group, name) match — they
equal `find?` on the enumeration, which is `none` exactly when no port
matches — and the one-argument forms equal the two-argument forms with the
empty group. -/
theorem getRef_first_match_of_enumeration (n : Node) (g nm : String) :
    (n.getOutputRef g nm = n.getOutputRefs.find? (fun o => o.group == g && o.name == nm)) ∧
    (n.getOutputRefByName nm = n.getOutputRef "" nm) ∧
    (n.getInputRef g nm = n.getInputRefs.find? (fun i => i.group == g && i.name == nm)) ∧
    (n.getInputRefByName nm = n.getInputRef "" nm) :=
  ⟨getOutputRefLoop_eq_find g nm n.getOutputRefs, rfl,
   getInputRefLoop_eq_find g nm n.getInputRefs, rfl⟩

theorem valuesOf_eq_map {α : Type} (l : List (String × α)) :
    Node.valuesOf l = l.map Prod.snd := by
  induction l with
  | nil => rfl
  | cons kv rest ih => simp [Node.valuesOf, ih]

theorem outputsOfMaps_eq_join (ms : List (String × Node.OutputMap)) :
    Node.outputsOfMaps ms = (ms.map (fun kv => kv.2.entries.map Prod.snd)).flatten := by
  induction ms with
  | nil => rfl
  | cons kv rest ih => simp [Node.outputsOfMaps, valuesOf_eq_map, ih]

theorem inputsOfMaps_eq_join (ms : List (String × Node.InputMap)) :
    Node.inputsOfMaps ms = (ms.map (fun kv => kv.2.entries.map Prod.snd)).flatten := by
  induction ms with
  | nil => rfl
  | cons kv rest ih => simp [Node.inputsOfMaps, valuesOf_eq_map, ih]

theorem mem_valuesOf {α : Type} (o : α) (l : List (String × α)) :
    o ∈ Node.valuesOf l ↔ ∃ k, (k, o) ∈ l := by
  rw [valuesOf_eq_map]
  constructor
  · intro h
    obtain ⟨kv, hm, he⟩ := List.mem_map.mp h
    exact ⟨kv.1, by rwa [show (kv.1, o) = kv from by rw [← he]]⟩
  · rintro ⟨k, hk⟩
    exact List.mem_map.mpr ⟨(k, o), hk, rfl⟩

theorem mem_outputsOfMaps (o : Node.Output) (ms : List (String × Node.OutputMap)) :
    o ∈ Node.outputsOfMaps ms
      ↔ ∃ g gm, (g, gm) ∈ ms ∧ ∃ k, (k, o) ∈ gm.entries := by
  induction ms with
  | nil => simp [Node.outputsOfMaps]
  | cons kv rest ih =>
    simp only [Node.outputsOfMaps, List.mem_append, mem_valuesOf, ih, List.mem_cons]
    constructor
    · rintro (⟨k, hk⟩ | ⟨g, gm, hm, k, hk⟩)
      · exact ⟨kv.1, kv.2, Or.inl rfl, k, hk⟩
      · exact ⟨g, gm, Or.inr hm, k, hk⟩
    · rintro ⟨g, gm, hm | hm, k, hk⟩
      · refine Or.inl ⟨k, ?_⟩
        rw [show kv = (g, gm) from hm.symm]
        exact hk
      · exact Or.inr ⟨g, gm, hm, k, hk⟩

theorem mem_inputsOfMaps (i : Node.Input) (ms : List (String × Node.InputMap)) :
    i ∈ Node.inputsOfMaps ms
      ↔ ∃ g gm, (g, gm) ∈ ms ∧ ∃ k, (k, i) ∈ gm.entries := by
  induction ms with
  | nil => simp [Node.inputsOfMaps]
  | cons kv rest ih =>
    simp only [Node.inputsOfMaps, List.mem_append, mem_valuesOf, ih, List.mem_cons]
    constructor
    · rintro (⟨k, hk⟩ | ⟨g, gm, hm, k, hk⟩)
      · exact ⟨kv.1, kv.2, Or.inl rfl, k, hk⟩
      · exact ⟨g, gm, Or.inr hm, k, hk⟩
    · rintro ⟨g, gm, hm | hm, k, hk⟩
      · refine Or.inl ⟨k, ?_⟩
        rw [show kv = (g, gm) from hm.symm]
        exact hk
      · exact Or.inr ⟨g, gm, hm, k, hk⟩

/-- C5: the port enumeration returns every port the node owns — singular
ports first (registration order), then each registered group's members
(groups in registration order, members in insertion order) — and a port is
enumerated exactly when it is a registered singular port or a materialized
member of a registered group. Determinism of repeated calls is immediate
since the enumeration is a pure function of these tables. -/
theorem getRefs_enumerate_every_port (n : Node) :
    (n.getOutputRefs
      = n.outputRefs.map Prod.snd
        ++ (n.outputMapRefs.map (fun kv => kv.2.entries.map Prod.snd)).flatten) ∧
    (∀ o, o ∈ n.getOutputRefs ↔
      ((∃ k, (k, o) ∈ n.outputRefs)
        ∨ ∃ g gm, (g, gm) ∈ n.outputMapRefs ∧ ∃ k, (k, o) ∈ gm.entries)) ∧
    (n.getInputRefs
      = n.inputRefs.map Prod.snd
        ++ (n.inputMapRefs.map (fun kv => kv.2.entries.map Prod.snd)).flatten) ∧
    (∀ i, i ∈ n.getInputRefs ↔
      ((∃ k, (k, i) ∈ n.inputRefs)
        ∨ ∃ g gm, (g, gm) ∈ n.inputMapRefs ∧ ∃ k, (k, i) ∈ gm.entries)) := by
  refine ⟨?_, fun o => ?_, ?_, fun i => ?_⟩
  · rw [Node.getOutputRefs, valuesOf_eq_map, outputsOfMaps_eq_join]
  · rw [Node.getOutputRefs]
    simp [mem_valuesOf, mem_outputsOfMaps]
  · rw [Node.getInputRefs, valuesOf_eq_map, inputsOfMaps_eq_join]
  · rw [Node.getInputRefs]
    simp [mem_valuesOf, mem_inputsOfMaps]

theorem find?_append_of_none {α : Type} (p : α → Bool) (l1 l2 : List α)
    (h : l1.find? p = none) : (l1 ++ l2).find? p = l2.find? p := by
  induction l1 with
  | nil => rfl
  | cons a rest ih =>
    cases hpa : p a with
    | true =>
      rw [List.find?_cons_of_pos _ hpa] at h
      exact absurd h (by simp)
    | false =>
      have hneg : ¬(p a = true) := by simp [hpa]
      rw [List.find?_cons_of_neg _ hneg] at h
      rw [List.cons_append, List.find?_cons_of_neg _ hneg]
      exact ih h

/-- C4: `operator[]` of a port group materializes an absent key as a copy
of the default template stamped with the map's name as group and the key
as name, appended to the entries; a present key is returned unchanged with
the map untouched; hence looking the same key up again returns the very
port the first lookup produced (so previously configured per-port settings
survive). Stated for both `OutputMap` and `InputMap`. -/
theorem mapIndex_materializes_once (om : Node.OutputMap) (im : Node.InputMap) (k : String) :
    (om.entries.find? (fun kv => kv.1 == k) = none →
      om.index k
        = ({ om with entries :=
              om.entries ++ [(k, { om.defaultOutput with group := om.name, name := k })] },
           { om.defaultOutput with group := om.name, name := k })) ∧
    (∀ kv, om.entries.find? (fun kv2 => kv2.1 == k) = some kv → om.index k = (om, kv.2)) ∧
    ((om.index k).1.index k = ((om.index k).1, (om.index k).2)) ∧
    (im.entries.find? (fun kv => kv.1 == k) = none →
      im.index k
        = ({ im with entries :=
              im.entries ++ [(k, { im.defaultInput with group := im.name, name := k })] },
           { im.defaultInput with group := im.name, name := k })) ∧
    (∀ kv, im.entries.find? (fun kv2 => kv2.1 == k) = some kv → im.index k = (im, kv.2)) ∧
    ((im.index k).1.index k = ((im.index k).1, (im.index k).2)) := by
  refine ⟨fun h => ?_, fun kv h => ?_, ?_, fun h => ?_, fun kv h => ?_, ?_⟩
  · simp [Node.OutputMap.index, h]
  · simp [Node.OutputMap.index, h]
  · cases h : om.entries.find? (fun kv => kv.1 == k) with
    | some kv => simp [Node.OutputMap.index, h]
    | none =>
      have h2 : ((om.entries
          ++ [(k, { om.defaultOutput with group := om.name, name := k })]).find?
            (fun kv => kv.1 == k))
          = some (k, { om.defaultOutput with group := om.name, name := k }) := by
        rw [find?_append_of_none _ _ _ h]
        simp [List.find?]
      simp [Node.OutputMap.index, h, h2]
  · simp [Node.InputMap.index, h]
  · simp [Node.InputMap.index, h]
  · cases h : im.entries.find? (fun kv => kv.1 == k) with
    | some kv => simp [Node.InputMap.index, h]
    | none =>
      have h2 : ((im.entries
          ++ [(k, { im.defaultInput with group := im.name, name := k })]).find?
            (fun kv => kv.1 == k))
          = some (k, { im.defaultInput with group := im.name, name := k }) := by
        rw [find?_append_of_none _ _ _ h]
        simp [List.find?]
      simp [Node.InputMap.index, h, h2]

/-- Witness for C4: the empty output group "g" materializes key "x" as the
stamped default; the input group "in" already holding an entry for "x"
with caller-set `queueSize = 7` returns that entry unchanged (the setting
survives, `getQueueSize = 7`), and a repeated lookup is idempotent. -/
theorem mapIndex_materializes_once_witness :
    Node.w4om.index "x"
      = ({ Node.w4om with entries := [("x", { Node.wOut with group := "g", name := "x" })] },
         { Node.wOut with group := "g", name := "x" }) ∧
    Node.w4im.index "x" = (Node.w4im, Node.w4imEntry) ∧
    (Node.w4im.index "x").2.getQueueSize = 7 ∧
    (Node.w4om.index "x").1.index "x" = ((Node.w4om.index "x").1, (Node.w4om.index "x").2) :=
  ⟨(mapIndex_materializes_once Node.w4om Node.w4im "x").1 rfl,
   (mapIndex_materializes_once Node.w4om Node.w4im "x").2.2.2.2.1 ("x", Node.w4imEntry) rfl,
   by
     rw [(mapIndex_materializes_once Node.w4om Node.w4im "x").2.2.2.2.1
        ("x", Node.w4imEntry) rfl]
     rfl,
   (mapIndex_materializes_once Node.w4om Node.w4im "x").2.2.1⟩

theorem valuesOf_sendToInputs (g nm : String) (m : Msg) (l : List (String × Node.Input)) :
    Node.valuesOf (Node.sendToInputs g nm m l)
      = (Node.valuesOf l).map (fun i =>
          if i.group == g && i.name == nm then { i with queue := i.queue.send m } else i) := by
  induction l with
  | nil => rfl
  | cons kv rest ih =>
    obtain ⟨k, i⟩ := kv
    simp [Node.sendToInputs, Node.valuesOf, ih]

theorem inputsOfMaps_sendToInputMaps (g nm : String) (m : Msg)
    (ms : List (String × Node.InputMap)) :
    Node.inputsOfMaps (Node.sendToInputMaps g nm m ms)
      = (Node.inputsOfMaps ms).map (fun i =>
          if i.group == g && i.name == nm then { i with queue := i.queue.send m } else i) := by
  induction ms with
  | nil => rfl
  | cons kv rest ih =>
    obtain ⟨k, im⟩ := kv
    simp [Node.sendToInputMaps, Node.inputsOfMaps, ih, valuesOf_sendToInputs]

theorem valuesOf_trySendToInputs (g nm : String) (m : Msg) (l : List (String × Node.Input)) :
    Node.valuesOf (Node.trySendToInputs g nm m l).2
      = (Node.valuesOf l).map (fun i =>
          if i.group == g && i.name == nm then { i with queue := (i.queue.trySend m).2 }
          else i) := by
  induction l with
  | nil => rfl
  | cons kv rest ih =>
    obtain ⟨k, i⟩ := kv
    cases h : (i.group == g && i.name == nm) with
    | true =>
      have h2 : i.group = g ∧ i.name = nm := by simpa using h
      simp [Node.trySendToInputs, Node.valuesOf, h, ih, h2]
    | false =>
      have h2 : ¬(i.group = g ∧ i.name = nm) := by simpa using h
      simp [Node.trySendToInputs, Node.valuesOf, h, ih, h2]

theorem inputsOfMaps_trySendToInputMaps (g nm : String) (m : Msg)
    (ms : List (String × Node.InputMap)) :
    Node.inputsOfMaps (Node.trySendToInputMaps g nm m ms).2
      = (Node.inputsOfMaps ms).map (fun i =>
          if i.group == g && i.name == nm then { i with queue := (i.queue.trySend m).2 }
          else i) := by
  induction ms with
  | nil => rfl
  | cons kv rest ih =>
    obtain ⟨k, im⟩ := kv
    simp [Node.trySendToInputMaps, Node.inputsOfMaps, ih, valuesOf_trySendToInputs]

/-- C9: one delivery step into a resolved node enqueues the message into
every enumerated input whose (group, name) matches the connection's input
endpoint — the enumeration after the step is the pointwise image of the
enumeration before it, updating all matches (not only the first), for the
blocking and for the non-blocking delivery alike. -/
theorem deliver_enqueues_into_every_match (n : Node) (g nm : String) (m : Msg) :
    ((Node.deliverSend n g nm m).getInputRefs
      = n.getInputRefs.map (fun i =>
          if i.group == g && i.name == nm then { i with queue := i.queue.send m } else i)) ∧
    ((Node.deliverTry n g nm m).2.getInputRefs
      = n.getInputRefs.map (fun i =>
          if i.group == g && i.name == nm then { i with queue := (i.queue.trySend m).2 }
          else i)) := by
  constructor
  · rw [Node.deliverSend, Node.getInputRefs, Node.getInputRefs]
    simp [valuesOf_sendToInputs, inputsOfMaps_sendToInputMaps]
  · rw [Node.deliverTry, Node.getInputRefs, Node.getInputRefs]
    simp [valuesOf_trySendToInputs, inputsOfMaps_trySendToInputMaps]

theorem trySendToInputs_eq_flags (g nm : String) (m : Msg) (l : List (String × Node.Input)) :
    Node.trySendToInputs g nm m l
      = ((Node.tryFlagsInputs g nm m l).1.all (fun b => b),
         (Node.tryFlagsInputs g nm m l).2) := by
  induction l with
  | nil => rfl
  | cons kv rest ih =>
    obtain ⟨k, i⟩ := kv
    cases h : (i.group == g && i.name == nm) with
    | true =>
      simp [Node.trySendToInputs, Node.tryFlagsInputs, h, ih, List.all_append]
    | false =>
      simp [Node.trySendToInputs, Node.tryFlagsInputs, h, ih]

theorem trySendToInputMaps_eq_flags (g nm : String) (m : Msg)
    (ms : List (String × Node.InputMap)) :
    Node.trySendToInputMaps g nm m ms
      = ((Node.tryFlagsInputMaps g nm m ms).1.all (fun b => b),
         (Node.tryFlagsInputMaps g nm m ms).2) := by
  induction ms with
  | nil => rfl
  | cons kv rest ih =>
    obtain ⟨k, im⟩ := kv
    simp [Node.trySendToInputMaps, Node.tryFlagsInputMaps, ih,
      trySendToInputs_eq_flags, List.all_append]

theorem deliverTry_eq_flags (n : Node) (g nm : String) (m : Msg) :
    Node.deliverTry n g nm m
      = ((Node.deliverTryFlags n g nm m).1.all (fun b => b),
         (Node.deliverTryFlags n g nm m).2) := by
  simp [Node.deliverTry, Node.deliverTryFlags, trySendToInputs_eq_flags,
    trySendToInputMaps_eq_flags, List.all_append]

theorem trySendLoop_of_attempts_some (m : Msg) (cs : List Node.Connection) :
    ∀ (acc : Bool) (p : PipelineImpl) (fs : List Bool) (pF : PipelineImpl),
      Node.trySendAttempts m cs p = some (fs, pF) →
      Node.trySendLoop m cs acc p = .ok (acc && fs.all (fun b => b), pF) := by
  induction cs with
  | nil =>
    intro acc p fs pF h
    simp only [Node.trySendAttempts, Option.some.injEq, Prod.mk.injEq] at h
    obtain ⟨rfl, rfl⟩ := h
    simp [Node.trySendLoop]
  | cons c rest ih =>
    intro acc p fs pF h
    rw [Node.trySendAttempts] at h
    cases hn : p.getNode c.inputId with
    | none => rw [hn] at h; exact absurd h (by simp)
    | some n =>
      rw [hn] at h
      simp only at h
      cases ha : Node.trySendAttempts m rest
          (p.replaceNode (Node.deliverTryFlags n c.inputGroup c.inputName m).2) with
      | none => rw [ha] at h; exact absurd h (by simp)
      | some pr =>
        obtain ⟨fs2, pF2⟩ := pr
        rw [ha] at h
        simp only [Option.some.injEq, Prod.mk.injEq] at h
        obtain ⟨rfl, rfl⟩ := h
        rw [Node.trySendLoop, hn]
        simp only [deliverTry_eq_flags]
        rw [ih (acc && (Node.deliverTryFlags n c.inputGroup c.inputName m).1.all (fun b => b))
          (p.replaceNode (Node.deliverTryFlags n c.inputGroup c.inputName m).2) fs2 pF2 ha]
        simp [List.all_append, Bool.and_assoc]

theorem trySendLoop_of_attempts_none (m : Msg) (cs : List Node.Connection) :
    ∀ (acc : Bool) (p : PipelineImpl),
      Node.trySendAttempts m cs p = none →
      Node.trySendLoop m cs acc p = .error () := by
  induction cs with
  | nil => intro acc p h; exact absurd h (by simp [Node.trySendAttempts])
  | cons c rest ih =>
    intro acc p h
    rw [Node.trySendAttempts] at h
    cases hn : p.getNode c.inputId with
    | none => rw [Node.trySendLoop, hn]
    | some n =>
      rw [hn] at h
      simp only at h
      rw [Node.trySendLoop, hn]
      simp only [deliverTry_eq_flags]
      cases ha : Node.trySendAttempts m rest
          (p.replaceNode (Node.deliverTryFlags n c.inputGroup c.inputName m).2) with
      | none =>
        exact ih _ _ ha
      | some pr =>
        rw [ha] at h
        exact absurd h (by simp)

/-- C1: `trySend(msg)` re-queries the connections and attempts a
non-blocking delivery for every match regardless of individual failures
(the spec-side run `trySendAttempts` performs every attempt and records
each attempt's success flag): with no connections it returns success
immediately; whenever the full attempt run exists, `trySend` returns
exactly the logical AND of all attempted deliveries' flags together with
the state in which every attempt was made; and it faults exactly when the
attempt run is unresolvable. -/
theorem trySend_is_and_of_all_attempts (out : Node.Output) (m : Msg) (p : PipelineImpl) :
    (out.getConnections p = [] → out.trySend m p = .ok (true, p)) ∧
    (∀ fs pF, Node.trySendAttempts m (out.getConnections p) p = some (fs, pF) →
      out.trySend m p = .ok (fs.all (fun b => b), pF)) ∧
    (Node.trySendAttempts m (out.getConnections p) p = none →
      out.trySend m p = .error ()) := by
  refine ⟨fun h => ?_, fun fs pF h => ?_, fun h => ?_⟩
  · rw [Node.Output.trySend, h]; rfl
  · rw [Node.Output.trySend, trySendLoop_of_attempts_some m (out.getConnections p) true p fs pF h]
    simp
  · rw [Node.Output.trySend]
    exact trySendLoop_of_attempts_none m (out.getConnections p) true p h

/-- Witness for C1: with no connections `trySend` returns success and
leaves the pipeline untouched; in the three-input fixture where i2's queue
is full, the attempt flags are [true, false, true], so `trySend` returns
false while i1 and i3 still received the message (`wPipeAfter`). -/
theorem trySend_is_and_of_all_attempts_witness :
    Node.Output.trySend Node.wOut 7 wPipeEmpty = .ok (true, wPipeEmpty) ∧
    Node.Output.trySend Node.wOut 7 wPipe = .ok (false, wPipeAfter) :=
  ⟨(trySend_is_and_of_all_attempts Node.wOut 7 wPipeEmpty).1 rfl,
   (trySend_is_and_of_all_attempts Node.wOut 7 wPipe).2.1 [true, false, true] wPipeAfter rfl⟩

end dai
